import Mathlib

/-!
Shallow embedding of `png-to-figlet-font` (`src/main.rs`), a command-line
tool that converts a 16×6 grid font sheet image into a FIGlet font file.

The decoded image is modelled as its dimensions together with a total
per-pixel luminance function (the `image` crate's `get_pixel(x,y).to_luma()`
query).  The structs `FigletGlyph` and `FigletFont`, their constructors and
`output` serializers, and the body of `main` (validation, character-option
handling, the pixel scan, and the final serialization) are translated
definition by definition from the Rust source.  File and image decoding I/O
stay outside the model: `mainRun` starts from an already decoded image and
returns either the error message `main` would report or the exact text that
would be written to the output file.
-/

namespace PngToFiglet

/-- A decoded raster image: pixel dimensions plus a total luminance query,
modelling `image.width()`, `image.height()` and
`image.get_pixel(x, y).to_luma().0[0]`. -/
structure Image where
  width : Nat
  height : Nat
  lum : Nat → Nat → Nat

/-- `struct FigletGlyph { rows: Vec<String> }`. -/
structure FigletGlyph where
  rows : List String
deriving DecidableEq, Repr

/-- `FigletGlyph::new(h)`: `h` copies of the empty string
(`let blank_string = String::from("");`). -/
def FigletGlyph.new (h : Nat) : FigletGlyph :=
  { rows := List.replicate h "" }

/-- `FigletGlyph::output`: each row followed by `@\n`, except the row at
index `rows.len() - 1`, which is followed by `@@\n`. -/
def FigletGlyph.output (g : FigletGlyph) : String :=
  (List.range g.rows.length).foldl
    (fun out i =>
      let out := out ++ g.rows.getD i ""
      if i = g.rows.length - 1 then out ++ "@@\n" else out ++ "@\n")
    ""

/-- `struct FigletFont { char_height: u32, glyphs: Vec<FigletGlyph> }`. -/
structure FigletFont where
  char_height : Nat
  glyphs : List FigletGlyph
deriving DecidableEq, Repr

/-- `FigletFont::new(h)`: `6 * 16` copies of the blank glyph. -/
def FigletFont.new (h : Nat) : FigletFont :=
  { char_height := h, glyphs := List.replicate (6 * 16) (FigletGlyph.new h) }

/-- `FigletFont::output`: header line, banner comment line plus blank line,
the 96 glyph blocks, then 6 more copies of the block of `glyphs[0]`. -/
def FigletFont.output (f : FigletFont) : String :=
  let header := "flf2a$ " ++ toString f.char_height ++ " "
    ++ toString f.char_height ++ " 20 -1 2\n"
  let out := header
  let out := out
    ++ "Font automatically generated from rust crate png-to-figlet-font\n\n"
  let out := f.glyphs.foldl (fun out glyph => out ++ glyph.output) out
  let space_glyph := f.glyphs.getD 0 (FigletGlyph.mk [])
  let out := (List.range 6).foldl (fun out _ => out ++ space_glyph.output) out
  out

/-- The pixel-scan loop nest of `main` (lines 146–167): for `glyph_y` in
`0..6`, `glyph_x` in `0..16`, `local_y` in `0..char_height`, `local_x` in
`0..char_width`, read the pixel at `(glyph_x * char_width + local_x,
glyph_y * char_height + local_y)` and push the pixel character (luminance
`≠ 0`) or the blank character onto row `local_y` of glyph
`glyph_y * 16 + glyph_x`. -/
def populate (img : Image) (pixel_char blank_char : Char)
    (char_width char_height : Nat) (font : FigletFont) : FigletFont :=
  (List.range 6).foldl (fun font glyph_y =>
    (List.range 16).foldl (fun font glyph_x =>
      let glyph_index := glyph_y * 16 + glyph_x
      (List.range char_height).foldl (fun font local_y =>
        (List.range char_width).foldl (fun font local_x =>
          let x := glyph_x * char_width + local_x
          let y := glyph_y * char_height + local_y
          let glyph := font.glyphs.getD glyph_index (FigletGlyph.mk [])
          let relevant_string := glyph.rows.getD local_y ""
          let luminance := img.lum x y
          let relevant_string :=
            if luminance ≠ 0 then relevant_string.push pixel_char
            else relevant_string.push blank_char
          { font with
            glyphs := font.glyphs.set glyph_index
              (FigletGlyph.mk (glyph.rows.set local_y relevant_string)) })
          font) font) font) font

/-- The inner two loops of the scan for grid cell `(gx, gy)`, acting on
the glyph being filled: for `local_y` in `0..char_height` and `local_x` in
`0..char_width`, push the rendered pixel onto row `local_y`. -/
def fillFold (img : Image) (pixel_char blank_char : Char)
    (cw ch gy gx : Nat) (glyph : FigletGlyph) : FigletGlyph :=
  (List.range ch).foldl (fun glyph local_y =>
    (List.range cw).foldl (fun glyph local_x =>
      FigletGlyph.mk (glyph.rows.set local_y
        (if img.lum (gx * cw + local_x) (gy * ch + local_y) ≠ 0 then
          (glyph.rows.getD local_y "").push pixel_char
         else (glyph.rows.getD local_y "").push blank_char))) glyph) glyph

/-- The same loop nest as `populate`, recording for each innermost
iteration the glyph index written to, the local row and column, and the
absolute pixel coordinates read — the instrumentation `main` keeps in its
`debug_coords` vector, extended with the loop indices of the write. -/
def scanTrace (char_width char_height : Nat) :
    List (Nat × Nat × Nat × Nat × Nat) :=
  (List.range 6).foldl (fun acc glyph_y =>
    (List.range 16).foldl (fun acc glyph_x =>
      let glyph_index := glyph_y * 16 + glyph_x
      (List.range char_height).foldl (fun acc local_y =>
        (List.range char_width).foldl (fun acc local_x =>
          let x := glyph_x * char_width + local_x
          let y := glyph_y * char_height + local_y
          acc ++ [(glyph_index, local_y, local_x, x, y)]) acc) acc) acc) []

/-- The body of `main` after image decoding: dimension validation, pixel
and blank option handling, geometry derivation, font initialization, the
scan, and serialization.  Returns the error message reported on failure or
the text written to the output file on success. -/
def mainRun (img : Image) (pixelArg blankArg : String) :
    Except String String :=
  let width := img.width
  if width % 16 ≠ 0 then
    Except.error "Font file is not a width divisible by 16."
  else
    let height := img.height
    if height % 6 ≠ 0 then
      Except.error "Font file is not a height divisible by 6."
    else
      match pixelArg.data.head? with
      | none => Except.error "Could not use the provided pixel."
      | some pixel_char =>
        match blankArg.data.head? with
        | none => Except.error "Could not use the provided blank."
        | some blank_char =>
          let char_width := width / 16
          let char_height := height / 6
          let font := FigletFont.new char_height
          let font :=
            populate img pixel_char blank_char char_width char_height font
          Except.ok font.output

/-- The output file's content: `main` only reaches `File::create` /
`write_all` when no earlier step returned an error. -/
def writtenFile (img : Image) (pixelArg blankArg : String) : Option String :=
  match mainRun img pixelArg blankArg with
  | Except.ok s => some s
  | Except.error _ => none

/-- The character a pixel is rendered as: the pixel character when the
luminance is nonzero, the blank character when it is zero. -/
def cellChar (img : Image) (pixel_char blank_char : Char) (x y : Nat) : Char :=
  if img.lum x y ≠ 0 then pixel_char else blank_char

/-- Closed form of the glyph at grid cell `(gx, gy)` after the scan:
`ch` rows, row `ly` being the `cw` rendered pixels of image row
`gy * ch + ly` starting at column `gx * cw`. -/
def glyphAt (img : Image) (pixel_char blank_char : Char)
    (cw ch gx gy : Nat) : FigletGlyph :=
  FigletGlyph.mk ((List.range ch).map (fun ly =>
    String.mk ((List.range cw).map (fun lx =>
      cellChar img pixel_char blank_char (gx * cw + lx) (gy * ch + ly)))))

/-- The font produced by the Extractor stage of `main` on a decoded image:
geometry derived from the image dimensions, blank-initialized, then
populated by the scan. -/
def extractedFont (img : Image) (pixel_char blank_char : Char) : FigletFont :=
  populate img pixel_char blank_char (img.width / 16) (img.height / 6)
    (FigletFont.new (img.height / 6))

/-- Concatenation of a list of strings. -/
def strConcat : List String → String
  | [] => ""
  | s :: rest => s ++ strConcat rest

/-- The glyph blocks of the serialized output, in order: the 96 glyph
blocks followed by 6 more copies of the block of glyph index 0. -/
def glyphBlocks (f : FigletFont) : List String :=
  f.glyphs.map FigletGlyph.output
    ++ List.replicate 6 ((f.glyphs.getD 0 (FigletGlyph.mk [])).output)

/-- Modelled from the spec: the scan order and pixel-to-glyph mapping the
spec claims — outer loop over the 6 grid rows, then the 16 grid columns
with glyph index `glyph_y * 16 + glyph_x`, then local rows `0..char_height`
and local columns `0..char_width`, sampling the absolute pixel
`(glyph_x * char_width + local_x, glyph_y * char_height + local_y)`.
Compared against `scanTrace`, which comes from the source loop nest. -/
def specScanOrder (char_width char_height : Nat) :
    List (Nat × Nat × Nat × Nat × Nat) :=
  (List.range 6).flatMap (fun glyph_y =>
    (List.range 16).flatMap (fun glyph_x =>
      (List.range char_height).flatMap (fun local_y =>
        (List.range char_width).map (fun local_x =>
          (glyph_y * 16 + glyph_x, local_y, local_x,
           glyph_x * char_width + local_x,
           glyph_y * char_height + local_y)))))

/-! ## Generic fold lemmas -/

/-- Writing back the element read at an index leaves a list unchanged. -/
lemma set_getD_self {α : Type} : ∀ (l : List α) (i : Nat) (d : α),
    l.set i (l.getD i d) = l
  | [], _, _ => rfl
  | _ :: _, 0, _ => rfl
  | x :: xs, i + 1, d => congrArg (x :: ·) (set_getD_self xs i d)

/-- A fold whose every step rewrites the same glyph slot of a font is the
single rewrite of that slot by the folded-up update. -/
lemma foldl_font_set_fixed {ι : Type} (gi : Nat) (d : FigletGlyph)
    (g : ι → FigletGlyph → FigletGlyph) :
    ∀ (l : List ι) (font : FigletFont),
      l.foldl (fun font b =>
          ⟨font.char_height,
           font.glyphs.set gi (g b (font.glyphs.getD gi d))⟩) font
      = ⟨font.char_height,
         font.glyphs.set gi
           (l.foldl (fun acc b => g b acc) (font.glyphs.getD gi d))⟩
  | [], font => by
    simp only [List.foldl_nil, set_getD_self]
  | b :: l, font => by
    rw [List.foldl_cons, List.foldl_cons, foldl_font_set_fixed gi d g l]
    by_cases h : gi < font.glyphs.length
    · simp only [List.getD_eq_getElem?_getD, List.getElem?_set_self h,
        Option.getD_some, List.set_set]
    · push_neg at h
      simp only [List.set_eq_of_length_le h,
        List.getD_eq_getElem?_getD, List.getElem?_eq_none h,
        Option.getD_none]

/-- Folding pixel pushes onto one row of a glyph appends the rendered
characters to that row. -/
lemma foldl_push_row (img : Image) (pc bc : Char) (xf : Nat → Nat)
    (yv ly : Nat) :
    ∀ (l : List Nat) (glyph : FigletGlyph),
      l.foldl (fun glyph lx =>
          FigletGlyph.mk (glyph.rows.set ly
            (if img.lum (xf lx) yv ≠ 0 then
              (glyph.rows.getD ly "").push pc
             else (glyph.rows.getD ly "").push bc))) glyph
      = FigletGlyph.mk (glyph.rows.set ly ((glyph.rows.getD ly "")
          ++ String.mk (l.map (fun lx => cellChar img pc bc (xf lx) yv))))
  | [], glyph => by
    have hs : ∀ s : String, s ++ String.mk [] = s := by
      intro s
      exact String.append_empty s
    simp only [List.foldl_nil, List.map_nil, hs, set_getD_self]
  | lx :: l, glyph => by
    rw [List.foldl_cons, foldl_push_row img pc bc xf yv ly l]
    have hpush : ∀ (s : String) (c : Char), s.push c = s ++ String.mk [c] :=
      fun _ _ => rfl
    have hite : (if img.lum (xf lx) yv ≠ 0 then
          (glyph.rows.getD ly "").push pc
        else (glyph.rows.getD ly "").push bc)
        = (glyph.rows.getD ly "")
          ++ String.mk [cellChar img pc bc (xf lx) yv] := by
      rw [cellChar]
      split <;> rw [hpush]
    rw [hite]
    by_cases h : ly < glyph.rows.length
    · simp only [List.getD_eq_getElem?_getD, List.getElem?_set_self h,
        Option.getD_some, List.set_set, List.map_cons]
      rw [String.append_assoc]
      have : String.mk [cellChar img pc bc (xf lx) yv]
          ++ String.mk (l.map (fun lx => cellChar img pc bc (xf lx) yv))
          = String.mk (cellChar img pc bc (xf lx) yv
              :: l.map (fun lx => cellChar img pc bc (xf lx) yv)) := rfl
      rw [this]
    · push_neg at h
      simp only [List.set_eq_of_length_le h,
        List.getD_eq_getElem?_getD, List.getElem?_eq_none h,
        Option.getD_none]

/-- A fold over consecutive indices that rewrites row `ly` from the
current row turns the not-yet-visited blank suffix into the mapped rows. -/
lemma foldl_rows_set_range (f : Nat → String → String) :
    ∀ (m : Nat) (done : List String),
      (List.range' done.length m).foldl (fun glyph ly =>
          FigletGlyph.mk (glyph.rows.set ly (f ly (glyph.rows.getD ly ""))))
        (FigletGlyph.mk (done ++ List.replicate m ""))
      = FigletGlyph.mk
          (done ++ (List.range' done.length m).map (fun ly => f ly ""))
  | 0, done => by simp
  | m + 1, done => by
    rw [List.range'_succ, List.foldl_cons, List.replicate_succ,
      List.map_cons]
    have hget : (done ++ "" :: List.replicate m "").getD done.length "" = "" := by
      rw [List.getD_append_right _ _ _ _ (Nat.le_refl _), Nat.sub_self]
      rfl
    have hset : (done ++ "" :: List.replicate m "").set done.length
        (f done.length "") = (done ++ [f done.length ""])
          ++ List.replicate m "" := by
      rw [List.set_append, if_neg (by omega), Nat.sub_self]
      simp
    rw [hget, hset]
    have hlen : done.length + 1 = (done ++ [f done.length ""]).length := by
      simp
    rw [hlen, foldl_rows_set_range f m (done ++ [f done.length ""])]
    simp

/-- A fold over consecutive indices that rewrites glyph slot `gi` from the
current glyph turns the not-yet-visited blank suffix into the mapped
glyphs. -/
lemma foldl_font_set_range (f : Nat → FigletGlyph → FigletGlyph)
    (d a : FigletGlyph) (c : Nat) :
    ∀ (m : Nat) (done : List FigletGlyph),
      (List.range' done.length m).foldl (fun font gi =>
          FigletFont.mk font.char_height
            (font.glyphs.set gi (f gi (font.glyphs.getD gi d))))
        (FigletFont.mk c (done ++ List.replicate m a))
      = FigletFont.mk c
          (done ++ (List.range' done.length m).map (fun gi => f gi a))
  | 0, done => by simp
  | m + 1, done => by
    rw [List.range'_succ, List.foldl_cons, List.replicate_succ,
      List.map_cons]
    have hget : (done ++ a :: List.replicate m a).getD done.length d = a := by
      rw [List.getD_append_right _ _ _ _ (Nat.le_refl _), Nat.sub_self]
      rfl
    have hset : (done ++ a :: List.replicate m a).set done.length
        (f done.length a) = (done ++ [f done.length a])
          ++ List.replicate m a := by
      rw [List.set_append, if_neg (by omega), Nat.sub_self]
      simp
    rw [hget, hset]
    have hlen : done.length + 1 = (done ++ [f done.length a]).length := by
      simp
    rw [hlen, foldl_font_set_range f d a c m (done ++ [f done.length a])]
    simp

/-- Two nested folds over `range m` and `range n` stepping at index
`i * n + j` flatten to one fold over `range (m * n)`. -/
lemma foldl_foldl_range {α : Type} (step : Nat → α → α) :
    ∀ (m n : Nat) (init : α),
      (List.range m).foldl (fun s i =>
        (List.range n).foldl (fun s j => step (i * n + j) s) s) init
      = (List.range (m * n)).foldl (fun s k => step k s) init
  | 0, n, init => by simp
  | m + 1, n, init => by
    rw [List.range_succ, List.foldl_append,
      foldl_foldl_range step m n init, Nat.succ_mul, List.range_add,
      List.foldl_append, List.foldl_map]
    simp only [List.foldl_cons, List.foldl_nil]

/-- Folding list appends equals appending the flattened pieces. -/
lemma foldl_append_acc {ι γ : Type} (h : ι → List γ) :
    ∀ (l : List ι) (acc : List γ),
      l.foldl (fun acc b => acc ++ h b) acc = acc ++ l.flatMap h
  | [], acc => by simp
  | b :: l, acc => by
    rw [List.foldl_cons, foldl_append_acc h l, List.flatMap_cons,
      List.append_assoc]

/-- Folding string appends equals appending the concatenated pieces. -/
lemma foldl_append_str {ι : Type} (h : ι → String) :
    ∀ (l : List ι) (acc : String),
      l.foldl (fun acc b => acc ++ h b) acc = acc ++ strConcat (l.map h)
  | [], acc => by
    rw [List.foldl_nil, List.map_nil, strConcat, String.append_empty]
  | b :: l, acc => by
    rw [List.foldl_cons, foldl_append_str h l, List.map_cons, strConcat,
      String.append_assoc]

/-- `strConcat` distributes over list append. -/
lemma strConcat_append : ∀ (as bs : List String),
    strConcat (as ++ bs) = strConcat as ++ strConcat bs
  | [], bs => by
    rw [List.nil_append, strConcat, String.empty_append]
  | a :: as, bs => by
    rw [List.cons_append, strConcat, strConcat, strConcat_append as bs,
      String.append_assoc]

/-- Reading every index of a list in order reproduces the list. -/
lemma map_getD_range {α β : Type} (d : α) (f : α → β) (l : List α) :
    (List.range l.length).map (fun i => f (l.getD i d)) = l.map f := by
  apply List.ext_getElem
  · simp
  · intro i h1 h2
    simp only [List.getElem_map, List.getElem_range]
    rw [List.getD_eq_getElem l d (by simpa using h1)]

/-! ## Characterizing the scan -/

/-- The inner two loops of the scan only rewrite glyph slot
`gy * 16 + gx`, applying `fillFold` to it. -/
lemma populate_inner_cell (img : Image) (pc bc : Char) (cw ch gy gx : Nat)
    (font : FigletFont) :
    (List.range ch).foldl (fun font local_y =>
      (List.range cw).foldl (fun font local_x =>
        FigletFont.mk font.char_height
          (font.glyphs.set (gy * 16 + gx)
            (FigletGlyph.mk
              ((font.glyphs.getD (gy * 16 + gx) (FigletGlyph.mk [])).rows.set
                local_y
                (if img.lum (gx * cw + local_x) (gy * ch + local_y) ≠ 0 then
                  ((font.glyphs.getD (gy * 16 + gx)
                      (FigletGlyph.mk [])).rows.getD local_y "").push pc
                 else
                  ((font.glyphs.getD (gy * 16 + gx)
                      (FigletGlyph.mk [])).rows.getD local_y "").push bc)))))
        font) font
    = FigletFont.mk font.char_height
        (font.glyphs.set (gy * 16 + gx)
          (fillFold img pc bc cw ch gy gx
            (font.glyphs.getD (gy * 16 + gx) (FigletGlyph.mk [])))) := by
  refine Eq.trans (List.foldl_ext _ (fun font local_y =>
    FigletFont.mk font.char_height
      (font.glyphs.set (gy * 16 + gx)
        ((List.range cw).foldl (fun glyph local_x =>
            FigletGlyph.mk (glyph.rows.set local_y
              (if img.lum (gx * cw + local_x) (gy * ch + local_y) ≠ 0 then
                (glyph.rows.getD local_y "").push pc
               else (glyph.rows.getD local_y "").push bc)))
          (font.glyphs.getD (gy * 16 + gx) (FigletGlyph.mk []))))) font ?_) ?_
  · intro font local_y _
    exact foldl_font_set_fixed (gy * 16 + gx) (FigletGlyph.mk [])
      (fun local_x glyph =>
        FigletGlyph.mk (glyph.rows.set local_y
          (if img.lum (gx * cw + local_x) (gy * ch + local_y) ≠ 0 then
            (glyph.rows.getD local_y "").push pc
           else (glyph.rows.getD local_y "").push bc)))
      (List.range cw) font
  · exact foldl_font_set_fixed (gy * 16 + gx) (FigletGlyph.mk [])
      (fun local_y glyph =>
        (List.range cw).foldl (fun glyph local_x =>
          FigletGlyph.mk (glyph.rows.set local_y
            (if img.lum (gx * cw + local_x) (gy * ch + local_y) ≠ 0 then
              (glyph.rows.getD local_y "").push pc
             else (glyph.rows.getD local_y "").push bc))) glyph)
      (List.range ch) font

/-- Filling the blank glyph of `FigletGlyph.new ch` produces exactly the
closed-form glyph `glyphAt`. -/
lemma fillFold_blank (img : Image) (pc bc : Char) (cw ch gy gx : Nat) :
    fillFold img pc bc cw ch gy gx (FigletGlyph.new ch)
    = glyphAt img pc bc cw ch gx gy := by
  rw [fillFold, FigletGlyph.new]
  refine Eq.trans (List.foldl_ext _ (fun glyph local_y =>
    FigletGlyph.mk (glyph.rows.set local_y ((glyph.rows.getD local_y "")
      ++ String.mk ((List.range cw).map (fun local_x =>
           cellChar img pc bc (gx * cw + local_x) (gy * ch + local_y))))))
    _ ?_) ?_
  · intro glyph local_y _
    exact foldl_push_row img pc bc (fun local_x => gx * cw + local_x)
      (gy * ch + local_y) local_y (List.range cw) glyph
  · have h := foldl_rows_set_range (fun local_y s =>
      s ++ String.mk ((List.range cw).map (fun local_x =>
        cellChar img pc bc (gx * cw + local_x) (gy * ch + local_y)))) ch []
    simp only [List.length_nil, List.nil_append, ← List.range_eq_range'] at h
    rw [h, glyphAt]
    congr 1

/-- Closed form of the Extractor stage: scanning the blank-initialized
font yields the 96 glyphs `glyphAt`, indexed row-major by
`gi = glyph_y * 16 + glyph_x`. -/
lemma populate_new_eq (img : Image) (pc bc : Char) (cw ch : Nat) :
    populate img pc bc cw ch (FigletFont.new ch)
    = FigletFont.mk ch ((List.range 96).map (fun gi =>
        glyphAt img pc bc cw ch (gi % 16) (gi / 16))) := by
  rw [populate]
  refine Eq.trans (List.foldl_ext _ (fun font gy =>
    (List.range 16).foldl (fun font gx =>
      FigletFont.mk font.char_height
        (font.glyphs.set (gy * 16 + gx)
          (fillFold img pc bc cw ch ((gy * 16 + gx) / 16)
            ((gy * 16 + gx) % 16)
            (font.glyphs.getD (gy * 16 + gx) (FigletGlyph.mk []))))) font)
    (FigletFont.new ch) ?_) ?_
  · intro font gy _
    apply List.foldl_ext
    intro font gx hgx
    have hgx16 : gx < 16 := List.mem_range.mp hgx
    have hdiv : (gy * 16 + gx) / 16 = gy := by omega
    have hmod : (gy * 16 + gx) % 16 = gx := by omega
    rw [hdiv, hmod]
    exact populate_inner_cell img pc bc cw ch gy gx font
  · refine Eq.trans (foldl_foldl_range (fun gi font =>
      FigletFont.mk font.char_height
        (font.glyphs.set gi
          (fillFold img pc bc cw ch (gi / 16) (gi % 16)
            (font.glyphs.getD gi (FigletGlyph.mk [])))))
      6 16 (FigletFont.new ch)) ?_
    have hr := foldl_font_set_range (fun gi glyph =>
      fillFold img pc bc cw ch (gi / 16) (gi % 16) glyph)
      (FigletGlyph.mk []) (FigletGlyph.new ch) ch 96 []
    simp only [List.length_nil, List.nil_append, ← List.range_eq_range'] at hr
    refine Eq.trans hr ?_
    simp only [fillFold_blank]

/-- Flat-mapping singletons is mapping. -/
lemma flatMap_singleton_map {α β : Type} (f : α → β) :
    ∀ l : List α, (l.flatMap fun x => [f x]) = l.map f
  | [] => rfl
  | x :: l => by
    rw [List.flatMap_cons, List.map_cons, flatMap_singleton_map f l]
    rfl

/-- The source scan trace visits exactly the pixels the spec's scan-order
and pixel-to-glyph-mapping sentences describe, in that order. -/
lemma scanTrace_eq_spec (cw ch : Nat) :
    scanTrace cw ch = specScanOrder cw ch := by
  rw [scanTrace, specScanOrder]
  simp only [foldl_append_acc, List.nil_append, flatMap_singleton_map]

/-! ## Characterizing the serializer -/

/-- `strConcat` of a single string. -/
lemma strConcat_singleton (x : String) : strConcat [x] = x := by
  rw [strConcat, strConcat, String.append_empty]

/-- A glyph block: every row followed by `@` and a newline, the last row
followed by `@@` and a newline. -/
lemma glyph_output_append_last (rs : List String) (r : String) :
    (FigletGlyph.mk (rs ++ [r])).output
    = strConcat (rs.map (fun s => s ++ "@\n")) ++ (r ++ "@@\n") := by
  have h0 : (FigletGlyph.mk (rs ++ [r])).output
      = (List.range (rs ++ [r]).length).foldl (fun out i =>
          out ++ ((rs ++ [r]).getD i ""
            ++ (if i = (rs ++ [r]).length - 1 then "@@\n" else "@\n"))) "" := by
    rw [FigletGlyph.output]
    apply List.foldl_ext
    intro out i _
    split <;> rw [String.append_assoc]
  rw [h0]
  simp only [foldl_append_str]
  rw [String.empty_append]
  have hlen : (rs ++ [r]).length = rs.length + 1 := by simp
  rw [hlen, List.range_succ, List.map_append, strConcat_append,
    List.map_cons, List.map_nil, strConcat_singleton]
  have hH : (rs ++ [r]).getD rs.length ""
      ++ (if rs.length = rs.length + 1 - 1 then "@@\n" else "@\n")
      = r ++ "@@\n" := by
    rw [List.getD_append_right _ _ _ _ (Nat.le_refl _), Nat.sub_self,
      if_pos (show rs.length = rs.length + 1 - 1 by omega)]
    rfl
  have hmap : (List.range rs.length).map (fun i => (rs ++ [r]).getD i ""
      ++ (if i = rs.length + 1 - 1 then "@@\n" else "@\n"))
      = rs.map (fun s => s ++ "@\n") := by
    rw [← map_getD_range "" (fun s => s ++ "@\n") rs]
    apply List.map_congr_left
    intro i hi
    have hi2 : i < rs.length := List.mem_range.mp hi
    rw [List.getD_append _ _ _ _ hi2,
      if_neg (show ¬ i = rs.length + 1 - 1 by omega)]
  rw [hmap, hH]

/-- The serialized font: header, banner comment plus blank line, then the
concatenated glyph blocks. -/
lemma font_output_eq (f : FigletFont) :
    f.output = ("flf2a$ " ++ toString f.char_height ++ " "
        ++ toString f.char_height ++ " 20 -1 2\n")
      ++ "Font automatically generated from rust crate png-to-figlet-font\n\n"
      ++ strConcat (glyphBlocks f) := by
  rw [FigletFont.output, glyphBlocks, strConcat_append]
  simp only [foldl_append_str]
  rw [show (List.range 6).map
      (fun _ => ((f.glyphs.getD 0 (FigletGlyph.mk [])).output))
      = List.replicate 6 ((f.glyphs.getD 0 (FigletGlyph.mk [])).output) by
    simp [List.map_const']]
  simp only [String.append_assoc]

/-- Closed form of `extractedFont`. -/
lemma extractedFont_eq (img : Image) (pc bc : Char) :
    extractedFont img pc bc
    = FigletFont.mk (img.height / 6) ((List.range 96).map (fun gi =>
        glyphAt img pc bc (img.width / 16) (img.height / 6)
          (gi % 16) (gi / 16))) := by
  rw [extractedFont, populate_new_eq]

/-! ## Claims -/

/-- C1: for every input image whose width is divisible by 16 and whose
height is divisible by 6, the Extractor produces a Font containing exactly
96 glyphs, every glyph has exactly `height/6` rows, and each row is a
string of exactly `width/16` characters. -/
theorem C1_extractor_geometry (img : Image) (pc bc : Char)
    (hw : img.width % 16 = 0) (hh : img.height % 6 = 0) :
    (extractedFont img pc bc).glyphs.length = 96
    ∧ ∀ g ∈ (extractedFont img pc bc).glyphs,
        g.rows.length = img.height / 6
        ∧ ∀ row ∈ g.rows, row.length = img.width / 16 := by
  rw [extractedFont_eq]
  constructor
  · simp
  · intro g hg
    simp only [List.mem_map, List.mem_range] at hg
    obtain ⟨gi, -, rfl⟩ := hg
    rw [glyphAt]
    constructor
    · simp
    · intro row hrow
      simp only [List.mem_map, List.mem_range] at hrow
      obtain ⟨ly, -, rfl⟩ := hrow
      simp [String.length]

/-- Witness for C1 at the 16×6 all-lit image. -/
theorem C1_extractor_geometry_witness :
    16 % 16 = 0 ∧ 6 % 6 = 0
    ∧ ((extractedFont ⟨16, 6, fun _ _ => 255⟩ '#' ' ').glyphs.length = 96
      ∧ ∀ g ∈ (extractedFont ⟨16, 6, fun _ _ => 255⟩ '#' ' ').glyphs,
          g.rows.length = 1 ∧ ∀ row ∈ g.rows, row.length = 1) :=
  ⟨rfl, rfl,
    C1_extractor_geometry ⟨16, 6, fun _ _ => 255⟩ '#' ' ' rfl rfl⟩

/-- C2: the glyph cell at local position `(lx, ly)` of grid cell
`(gx, gy)` is the blank character when the sampled pixel's luminance is 0
and the pixel character when it is positive, and no populated cell ever
holds any other character. -/
theorem C2_threshold_law (img : Image) (pc bc : Char)
    (hw : img.width % 16 = 0) (hh : img.height % 6 = 0) :
    (∀ gy gx ly lx, gy < 6 → gx < 16 →
      ly < img.height / 6 → lx < img.width / 16 →
      (img.lum (gx * (img.width / 16) + lx) (gy * (img.height / 6) + ly) = 0 →
        (((extractedFont img pc bc).glyphs.getD (gy * 16 + gx)
            (FigletGlyph.mk [])).rows.getD ly "").data.getD lx '?' = bc)
      ∧ (0 < img.lum (gx * (img.width / 16) + lx)
            (gy * (img.height / 6) + ly) →
        (((extractedFont img pc bc).glyphs.getD (gy * 16 + gx)
            (FigletGlyph.mk [])).rows.getD ly "").data.getD lx '?' = pc))
    ∧ ∀ g ∈ (extractedFont img pc bc).glyphs, ∀ row ∈ g.rows,
        ∀ c ∈ row.data, c = pc ∨ c = bc := by
  rw [extractedFont_eq]
  constructor
  · intro gy gx ly lx hgy hgx hly hlx
    have hgi : gy * 16 + gx < 96 := by omega
    have hglyph : ((List.range 96).map (fun gi =>
        glyphAt img pc bc (img.width / 16) (img.height / 6)
          (gi % 16) (gi / 16))).getD (gy * 16 + gx) (FigletGlyph.mk [])
        = glyphAt img pc bc (img.width / 16) (img.height / 6) gx gy := by
      rw [List.getD_eq_getElem _ _ (by simpa using hgi), List.getElem_map,
        List.getElem_range]
      rw [show (gy * 16 + gx) % 16 = gx by omega,
        show (gy * 16 + gx) / 16 = gy by omega]
    rw [hglyph, glyphAt]
    have hrow : ((List.range (img.height / 6)).map (fun ly2 =>
        String.mk ((List.range (img.width / 16)).map (fun lx2 =>
          cellChar img pc bc (gx * (img.width / 16) + lx2)
            (gy * (img.height / 6) + ly2))))).getD ly ""
        = String.mk ((List.range (img.width / 16)).map (fun lx2 =>
            cellChar img pc bc (gx * (img.width / 16) + lx2)
              (gy * (img.height / 6) + ly))) := by
      rw [List.getD_eq_getElem _ _ (by simpa using hly), List.getElem_map,
        List.getElem_range]
    rw [hrow]
    have hcell : (String.mk ((List.range (img.width / 16)).map (fun lx2 =>
        cellChar img pc bc (gx * (img.width / 16) + lx2)
          (gy * (img.height / 6) + ly)))).data.getD lx '?'
        = cellChar img pc bc (gx * (img.width / 16) + lx)
            (gy * (img.height / 6) + ly) := by
      rw [show (String.mk ((List.range (img.width / 16)).map (fun lx2 =>
          cellChar img pc bc (gx * (img.width / 16) + lx2)
            (gy * (img.height / 6) + ly)))).data
          = (List.range (img.width / 16)).map (fun lx2 =>
              cellChar img pc bc (gx * (img.width / 16) + lx2)
                (gy * (img.height / 6) + ly)) from rfl]
      rw [List.getD_eq_getElem _ _ (by simpa using hlx), List.getElem_map,
        List.getElem_range]
    rw [hcell, cellChar]
    constructor
    · intro h0
      rw [if_neg (by omega)]
    · intro hpos
      rw [if_pos (by omega)]
  · intro g hg row hrow c hc
    simp only [List.mem_map, List.mem_range] at hg
    obtain ⟨gi, -, rfl⟩ := hg
    rw [glyphAt] at hrow
    simp only [List.mem_map, List.mem_range] at hrow
    obtain ⟨ly, -, rfl⟩ := hrow
    simp only [List.mem_map, List.mem_range] at hc
    obtain ⟨lx, -, rfl⟩ := hc
    rw [cellChar]
    split
    · exact Or.inl rfl
    · exact Or.inr rfl

/-- Witness for C2 at a 16×6 image whose only lit pixel is `(0, 0)`. -/
theorem C2_threshold_law_witness :
    16 % 16 = 0 ∧ 6 % 6 = 0
    ∧ ((∀ gy gx ly lx, gy < 6 → gx < 16 → ly < 1 → lx < 1 →
        ((fun x y => if x = 0 ∧ y = 0 then 255 else 0) (gx * 1 + lx)
            (gy * 1 + ly) = 0 →
          (((extractedFont
              ⟨16, 6, fun x y => if x = 0 ∧ y = 0 then 255 else 0⟩
              '#' ' ').glyphs.getD (gy * 16 + gx)
              (FigletGlyph.mk [])).rows.getD ly "").data.getD lx '?' = ' ')
        ∧ (0 < (fun x y => if x = 0 ∧ y = 0 then 255 else 0) (gx * 1 + lx)
              (gy * 1 + ly) →
          (((extractedFont
              ⟨16, 6, fun x y => if x = 0 ∧ y = 0 then 255 else 0⟩
              '#' ' ').glyphs.getD (gy * 16 + gx)
              (FigletGlyph.mk [])).rows.getD ly "").data.getD lx '?' = '#'))
      ∧ ∀ g ∈ (extractedFont
            ⟨16, 6, fun x y => if x = 0 ∧ y = 0 then 255 else 0⟩
            '#' ' ').glyphs, ∀ row ∈ g.rows,
          ∀ c ∈ row.data, c = '#' ∨ c = ' ') :=
  ⟨rfl, rfl,
    C2_threshold_law ⟨16, 6, fun x y => if x = 0 ∧ y = 0 then 255 else 0⟩
      '#' ' ' rfl rfl⟩

/-- C3: the serialized output consists of the header and banner followed
by exactly 102 glyph blocks in index order — the 96 glyph blocks and then
6 blocks identical to the block of glyph index 0 — where within every
block each row is terminated by `@` and a newline and the final row by
`@@` and a newline. -/
theorem C3_block_structure (f : FigletFont) (h96 : f.glyphs.length = 96) :
    f.output = ("flf2a$ " ++ toString f.char_height ++ " "
        ++ toString f.char_height ++ " 20 -1 2\n")
      ++ "Font automatically generated from rust crate png-to-figlet-font\n\n"
      ++ strConcat (glyphBlocks f)
    ∧ (glyphBlocks f).length = 102
    ∧ (∀ i, i < 96 →
        (glyphBlocks f).getD i ""
          = (f.glyphs.getD i (FigletGlyph.mk [])).output)
    ∧ (∀ i, 96 ≤ i → i < 102 →
        (glyphBlocks f).getD i ""
          = (f.glyphs.getD 0 (FigletGlyph.mk [])).output)
    ∧ ∀ rs r, (FigletGlyph.mk (rs ++ [r])).output
        = strConcat (rs.map (fun s => s ++ "@\n")) ++ (r ++ "@@\n") := by
  refine ⟨font_output_eq f, ?_, ?_, ?_, glyph_output_append_last⟩
  · rw [glyphBlocks]
    simp [h96]
  · intro i hi
    rw [glyphBlocks,
      List.getD_append _ _ _ _ (by simpa [h96] using hi),
      List.getD_eq_getElem _ _ (by simpa [h96] using hi), List.getElem_map,
      List.getD_eq_getElem _ _ (by omega)]
  · intro i h96le h102
    rw [glyphBlocks, List.getD_append_right _ _ _ _ (by simpa [h96]),
      List.getD_eq_getElem _ _ (by simp [h96]; omega),
      List.getElem_replicate]

/-- Witness for C3 at the freshly initialized font of height 1. -/
theorem C3_block_structure_witness :
    (FigletFont.new 1).glyphs.length = 96
    ∧ ((FigletFont.new 1).output = ("flf2a$ " ++ toString (1 : Nat) ++ " "
          ++ toString (1 : Nat) ++ " 20 -1 2\n")
        ++ "Font automatically generated from rust crate png-to-figlet-font\n\n"
        ++ strConcat (glyphBlocks (FigletFont.new 1))
      ∧ (glyphBlocks (FigletFont.new 1)).length = 102
      ∧ (∀ i, i < 96 →
          (glyphBlocks (FigletFont.new 1)).getD i ""
            = ((FigletFont.new 1).glyphs.getD i (FigletGlyph.mk [])).output)
      ∧ (∀ i, 96 ≤ i → i < 102 →
          (glyphBlocks (FigletFont.new 1)).getD i ""
            = ((FigletFont.new 1).glyphs.getD 0 (FigletGlyph.mk [])).output)
      ∧ ∀ rs r, (FigletGlyph.mk (rs ++ [r])).output
          = strConcat (rs.map (fun s => s ++ "@\n")) ++ (r ++ "@@\n")) :=
  ⟨rfl, C3_block_structure (FigletFont.new 1) rfl⟩

/-- C4: for every Font, the serialized output begins with the header line
`flf2a$ h h 20 -1 2` and a newline, then the single fixed banner line,
then one blank line, before any glyph block. -/
theorem C4_header_and_banner (f : FigletFont) :
    f.output = (("flf2a$ " ++ toString f.char_height ++ " "
        ++ toString f.char_height ++ " 20 -1 2") ++ "\n")
      ++ (("Font automatically generated from rust crate png-to-figlet-font"
          ++ "\n")
        ++ ("\n"
          ++ strConcat (glyphBlocks f))) := by
  rw [font_output_eq]
  rw [show ("Font automatically generated from rust crate png-to-figlet-font"
      : String) ++ "\n"
      = "Font automatically generated from rust crate png-to-figlet-font\n"
    from by decide]
  rw [← String.append_assoc
    "Font automatically generated from rust crate png-to-figlet-font\n"
    "\n" (strConcat (glyphBlocks f))]
  rw [show ("Font automatically generated from rust crate png-to-figlet-font\n"
      : String) ++ "\n"
      = "Font automatically generated from rust crate png-to-figlet-font\n\n"
    from by decide]
  rw [String.append_assoc _ " 20 -1 2" "\n",
    show (" 20 -1 2" : String) ++ "\n" = " 20 -1 2\n" from by decide]
  simp only [String.append_assoc]

/-- C5: the scan visits grid rows 0..6 outermost, then grid columns 0..16
with glyph index `glyph_y * 16 + glyph_x`, then local rows, then local
columns, sampling the absolute pixel
`(glyph_x * char_width + local_x, glyph_y * char_height + local_y)` —
the derived-stride mapping. -/
theorem C5_scan_order (char_width char_height : Nat) :
    scanTrace char_width char_height
      = specScanOrder char_width char_height :=
  scanTrace_eq_spec char_width char_height

/-- C6: a width not divisible by 16 fails with the width dimension error
even when the height is also invalid; with a valid width, a height not
divisible by 6 fails with the height dimension error; in both cases no
output file is written and the outcome is independent of the pixel data
(validation precedes any sampling). -/
theorem C6_dimension_errors (img : Image) (p b : String) :
    (img.width % 16 ≠ 0 →
      mainRun img p b
          = Except.error "Font file is not a width divisible by 16."
      ∧ writtenFile img p b = none
      ∧ ∀ lum2 : Nat → Nat → Nat,
          mainRun (Image.mk img.width img.height lum2) p b
            = mainRun img p b)
    ∧ (img.width % 16 = 0 → img.height % 6 ≠ 0 →
      mainRun img p b
          = Except.error "Font file is not a height divisible by 6."
      ∧ writtenFile img p b = none
      ∧ ∀ lum2 : Nat → Nat → Nat,
          mainRun (Image.mk img.width img.height lum2) p b
            = mainRun img p b) := by
  constructor
  · intro hw
    have hrun : mainRun img p b
        = Except.error "Font file is not a width divisible by 16." := by
      rw [mainRun, if_pos hw]
    refine ⟨hrun, ?_, ?_⟩
    · rw [writtenFile, hrun]
    · intro lum2
      rw [hrun, mainRun, if_pos hw]
  · intro hw hh
    have hrun : mainRun img p b
        = Except.error "Font file is not a height divisible by 6." := by
      rw [mainRun, if_neg (by simp [hw]), if_pos hh]
    refine ⟨hrun, ?_, ?_⟩
    · rw [writtenFile, hrun]
    · intro lum2
      rw [hrun, mainRun, if_neg (by simp [hw]), if_pos hh]

/-- Witness for C6 at a 17×7 image (width branch) and a 16×7 image
(height branch). -/
theorem C6_dimension_errors_witness :
    ((17 : Nat) % 16 ≠ 0
      ∧ (mainRun ⟨17, 7, fun _ _ => 0⟩ "#" " "
            = Except.error "Font file is not a width divisible by 16."
        ∧ writtenFile ⟨17, 7, fun _ _ => 0⟩ "#" " " = none
        ∧ ∀ lum2 : Nat → Nat → Nat,
            mainRun (Image.mk 17 7 lum2) "#" " "
              = mainRun ⟨17, 7, fun _ _ => 0⟩ "#" " "))
    ∧ ((16 : Nat) % 16 = 0 ∧ (7 : Nat) % 6 ≠ 0
      ∧ (mainRun ⟨16, 7, fun _ _ => 0⟩ "#" " "
            = Except.error "Font file is not a height divisible by 6."
        ∧ writtenFile ⟨16, 7, fun _ _ => 0⟩ "#" " " = none
        ∧ ∀ lum2 : Nat → Nat → Nat,
            mainRun (Image.mk 16 7 lum2) "#" " "
              = mainRun ⟨16, 7, fun _ _ => 0⟩ "#" " ")) :=
  ⟨⟨by decide,
    (C6_dimension_errors ⟨17, 7, fun _ _ => 0⟩ "#" " ").1 (by decide)⟩,
   ⟨by decide, by decide,
    (C6_dimension_errors ⟨16, 7, fun _ _ => 0⟩ "#" " ").2 (by decide)
      (by decide)⟩⟩

/-- C10: on an image passing the divisibility validation, every pixel
coordinate the scan visits is strictly inside the image, so the per-pixel
read is always in bounds. -/
theorem C10_scan_in_bounds (img : Image)
    (hw : img.width % 16 = 0) (hh : img.height % 6 = 0) :
    ∀ e ∈ scanTrace (img.width / 16) (img.height / 6),
      e.2.2.2.1 < img.width ∧ e.2.2.2.2 < img.height := by
  intro e he
  rw [scanTrace_eq_spec, specScanOrder] at he
  simp only [List.mem_flatMap, List.mem_map, List.mem_range] at he
  obtain ⟨gy, hgy, gx, hgx, ly, hly, lx, hlx, rfl⟩ := he
  have hwd : 16 * (img.width / 16) = img.width :=
    Nat.mul_div_cancel' (Nat.dvd_of_mod_eq_zero hw)
  have hht : 6 * (img.height / 6) = img.height :=
    Nat.mul_div_cancel' (Nat.dvd_of_mod_eq_zero hh)
  constructor
  · show gx * (img.width / 16) + lx < img.width
    have h1 : gx * (img.width / 16) + lx < (gx + 1) * (img.width / 16) := by
      rw [Nat.succ_mul]
      omega
    have h2 : (gx + 1) * (img.width / 16) ≤ 16 * (img.width / 16) :=
      Nat.mul_le_mul_right _ (by omega)
    omega
  · show gy * (img.height / 6) + ly < img.height
    have h1 : gy * (img.height / 6) + ly < (gy + 1) * (img.height / 6) := by
      rw [Nat.succ_mul]
      omega
    have h2 : (gy + 1) * (img.height / 6) ≤ 6 * (img.height / 6) :=
      Nat.mul_le_mul_right _ (by omega)
    omega

/-- Witness for C10 at a 32×12 image. -/
theorem C10_scan_in_bounds_witness :
    32 % 16 = 0 ∧ 12 % 6 = 0
    ∧ ∀ e ∈ scanTrace (32 / 16) (12 / 6),
        e.2.2.2.1 < 32 ∧ e.2.2.2.2 < 12 :=
  ⟨rfl, rfl, C10_scan_in_bounds ⟨32, 12, fun _ _ => 0⟩ rfl rfl⟩

/-- C7 counterexample: the 0×6 image is smaller than 16×6 and yields
`char_width = 0`, yet it passes both divisibility checks and the run
proceeds through extraction and serialization to a written output file
instead of failing. -/
theorem C7_counterexample :
    (0 : Nat) < 16 ∧ (0 : Nat) % 16 = 0 ∧ (6 : Nat) % 6 = 0
    ∧ (0 : Nat) / 16 = 0
    ∧ (writtenFile ⟨0, 6, fun _ _ => 0⟩ "#" " ").isSome = true := by
  decide

/-- C7 as amended: the derived `char_width` and `char_height` are at
least 1 whenever the corresponding dimension is nonzero; the code has no
explicit minimum-size check, so an image with a zero dimension that
passes the divisibility checks (with valid character options) proceeds to
extraction and serialization. -/
theorem C7_geometry_amended (img : Image) (p b : String)
    (hw : img.width % 16 = 0) (hh : img.height % 6 = 0)
    (hp : p ≠ "") (hb : b ≠ "") :
    (img.width ≠ 0 → 1 ≤ img.width / 16)
    ∧ (img.height ≠ 0 → 1 ≤ img.height / 6)
    ∧ (writtenFile img p b).isSome = true := by
  refine ⟨?_, ?_, ?_⟩
  · intro h0
    have h16 : 16 ≤ img.width :=
      Nat.le_of_dvd (Nat.pos_of_ne_zero h0) (Nat.dvd_of_mod_eq_zero hw)
    omega
  · intro h0
    have h6 : 6 ≤ img.height :=
      Nat.le_of_dvd (Nat.pos_of_ne_zero h0) (Nat.dvd_of_mod_eq_zero hh)
    omega
  · obtain ⟨c, cs, hc⟩ : ∃ c cs, p.data = c :: cs := by
      cases hpd : p.data with
      | nil => exact absurd (String.ext hpd) hp
      | cons c cs => exact ⟨c, cs, rfl⟩
    obtain ⟨d, ds, hd⟩ : ∃ d ds, b.data = d :: ds := by
      cases hbd : b.data with
      | nil => exact absurd (String.ext hbd) hb
      | cons d ds => exact ⟨d, ds, rfl⟩
    have hcp : p.data.head? = some c := by rw [hc]; rfl
    have hdb : b.data.head? = some d := by rw [hd]; rfl
    rw [writtenFile, mainRun, if_neg (by simp [hw]), if_neg (by simp [hh]),
      hcp, hdb]
    rfl

/-- Witness for the amended C7 at the minimum valid 16×6 image. -/
theorem C7_geometry_amended_witness :
    16 % 16 = 0 ∧ 6 % 6 = 0 ∧ ("#" : String) ≠ "" ∧ (" " : String) ≠ ""
    ∧ ((16 ≠ 0 → 1 ≤ 16 / 16) ∧ (6 ≠ 0 → 1 ≤ 6 / 6)
      ∧ (writtenFile ⟨16, 6, fun _ _ => 0⟩ "#" " ").isSome = true) :=
  ⟨rfl, rfl, by decide, by decide,
    C7_geometry_amended ⟨16, 6, fun _ _ => 0⟩ "#" " " rfl rfl
      (by decide) (by decide)⟩

/-- C8 counterexample: for the 16×6 image (`char_width = 16/16 = 1`),
right after font initialization glyph 0's first row is the empty string —
length 0, not `char_width` — so no cell is set to the blank character. -/
theorem C8_counterexample :
    ((FigletFont.new (6 / 6)).glyphs.getD 0 (FigletGlyph.mk [])).rows.getD
        0 "x" = ""
    ∧ (((FigletFont.new (6 / 6)).glyphs.getD 0
        (FigletGlyph.mk [])).rows.getD 0 "x").length ≠ 16 / 16 := by
  decide

/-- C8 as amended: immediately after Font initialization the Font holds
96 glyphs, each with `char_height` rows that are all the empty string;
cells are appended one at a time by the scan, not pre-filled with the
blank character. -/
theorem C8_init_amended (h : Nat) :
    (FigletFont.new h).glyphs.length = 96
    ∧ ∀ g ∈ (FigletFont.new h).glyphs,
        g.rows.length = h ∧ ∀ row ∈ g.rows, row = "" := by
  constructor
  · rw [FigletFont.new]
    simp
  · intro g hg
    rw [FigletFont.new] at hg
    simp only [List.mem_replicate] at hg
    obtain ⟨-, rfl⟩ := hg
    rw [FigletGlyph.new]
    refine ⟨by simp, ?_⟩
    intro row hrow
    simp only [List.mem_replicate] at hrow
    exact hrow.2

/-- C9 counterexample: with a width not divisible by 16 and an empty
pixel option, the run fails with the dimension error, not with an error
naming the invalid character option. -/
theorem C9_counterexample :
    mainRun ⟨17, 6, fun _ _ => 0⟩ "" " "
        = Except.error "Font file is not a width divisible by 16."
    ∧ ("Font file is not a width divisible by 16." : String)
        ≠ "Could not use the provided pixel."
    ∧ ("Font file is not a width divisible by 16." : String)
        ≠ "Could not use the provided blank." :=
  ⟨rfl, by decide, by decide⟩

/-- C9 as amended: once dimension validation passes, an empty pixel
option fails with the error naming the pixel option; a nonempty pixel
option and an empty blank option fail with the error naming the blank
option; with both nonempty, only the first character of each supplied
value is used. -/
theorem C9_char_options_amended (img : Image) (p b : String)
    (hw : img.width % 16 = 0) (hh : img.height % 6 = 0) :
    (p = "" →
      mainRun img p b = Except.error "Could not use the provided pixel.")
    ∧ (∀ c cs, p = String.mk (c :: cs) → b = "" →
      mainRun img p b = Except.error "Could not use the provided blank.")
    ∧ ∀ c d cs ds, p = String.mk (c :: cs) → b = String.mk (d :: ds) →
        mainRun img p b = mainRun img (String.mk [c]) (String.mk [d]) := by
  refine ⟨?_, ?_, ?_⟩
  · intro hp
    subst hp
    rw [mainRun, if_neg (by simp [hw]), if_neg (by simp [hh])]
    rfl
  · intro c cs hp hb
    subst hp
    subst hb
    rw [mainRun, if_neg (by simp [hw]), if_neg (by simp [hh])]
    rfl
  · intro c d cs ds hp hb
    subst hp
    subst hb
    have h1 : mainRun img (String.mk (c :: cs)) (String.mk (d :: ds))
        = Except.ok ((populate img c d (img.width / 16) (img.height / 6)
            (FigletFont.new (img.height / 6))).output) := by
      rw [mainRun, if_neg (by simp [hw]), if_neg (by simp [hh])]
      rfl
    have h2 : mainRun img (String.mk [c]) (String.mk [d])
        = Except.ok ((populate img c d (img.width / 16) (img.height / 6)
            (FigletFont.new (img.height / 6))).output) := by
      rw [mainRun, if_neg (by simp [hw]), if_neg (by simp [hh])]
      rfl
    rw [h1, h2]


/-- Witness for the amended C9 at a 16×6 image with two-character
options. -/
theorem C9_char_options_amended_witness :
    16 % 16 = 0 ∧ 6 % 6 = 0
    ∧ (("ab" : String) = "" →
      mainRun ⟨16, 6, fun _ _ => 0⟩ "ab" "cd"
        = Except.error "Could not use the provided pixel.")
    ∧ (∀ c cs, ("ab" : String) = String.mk (c :: cs) →
      ("cd" : String) = "" →
      mainRun ⟨16, 6, fun _ _ => 0⟩ "ab" "cd"
        = Except.error "Could not use the provided blank.")
    ∧ ∀ c d cs ds, ("ab" : String) = String.mk (c :: cs) →
        ("cd" : String) = String.mk (d :: ds) →
        mainRun ⟨16, 6, fun _ _ => 0⟩ "ab" "cd"
          = mainRun ⟨16, 6, fun _ _ => 0⟩ (String.mk [c])
              (String.mk [d]) := by
  refine ⟨rfl, rfl, ?_⟩
  exact C9_char_options_amended ⟨16, 6, fun _ _ => 0⟩ "ab" "cd" rfl rfl

end PngToFiglet
